import Mathlib

set_option maxHeartbeats 1000000

namespace ChessAI

/-!
Shallow embedding of the Chess-AI repository (App orchestrator in
src/services/geminiService.ts lines 96-387, GeminiChessService in lines 4-94,
ChessBoard component and shared types in src/unnamed).

The chess rules engine (chess.js) is an external collaborator, so it is
modelled as a record of functions over an abstract position type Fen; the
Lawful predicate collects the facts about chess.js the proofs rely on
(SAN round-tripping, legality of the generated move list, absence of legal
moves in terminal positions).  The React component is modelled as an
event-driven small-step system: the synchronous prefix of each handler runs
as one step, and each `await` suspension becomes a pending Task whose
continuation runs when its response is delivered.
-/

inductive ChatRole where
  | user
  | assistant
  deriving DecidableEq

structure ChatMsg where
  role : ChatRole
  content : String
  deriving DecidableEq

/-- Move request emitted by the presentation layer
(src/unnamed/part_000, interface Move). -/
structure MoveReq where
  fromSq : String
  toSq : String
  promotion : Option String
  deriving DecidableEq

structure Piece where
  pcolor : String
  ptype : String
  deriving DecidableEq

/-- Abstract interface of the external rules engine (chess.js):
moveSan is game.move(sanString), moveReq is game.move({from,to,promotion}),
both returning the successor position together with the canonical SAN of the
applied move, or none when the move is rejected. -/
structure Engine (Fen : Type) where
  init : Fen
  moveSan : Fen → String → Option (Fen × String)
  moveReq : Fen → MoveReq → Option (Fen × String)
  moves : Fen → List String
  isGameOver : Fen → Bool
  isCheckmate : Fen → Bool
  turnWhite : Fen → Bool

/-- Facts about chess.js used by the proofs. -/
structure Lawful {Fen : Type} (E : Engine Fen) : Prop where
  reqRound : ∀ f r f' san, E.moveReq f r = some (f', san) → E.moveSan f san = some (f', san)
  sanCanon : ∀ f s f' san, E.moveSan f s = some (f', san) → E.moveSan f san = some (f', san)
  movesLegal : ∀ f s, s ∈ E.moves f → ∃ f', E.moveSan f s = some (f', s)
  overNoReq : ∀ f r, E.isGameOver f = true → E.moveReq f r = none
  overNoSan : ∀ f s, E.isGameOver f = true → E.moveSan f s = none
  liveMoves : ∀ f, E.isGameOver f = false → E.moves f ≠ []

/-- The React state of the App component (useState hooks, lines 103-110). -/
structure AppState (Fen : Type) where
  game : Fen
  history : List String
  aiAnalysis : String
  chatMessages : List ChatMsg
  isAiThinking : Bool
  isAiPlaying : Bool
  elo : Nat
  deriving DecidableEq

/-- A pending asynchronous continuation, recording the closure-captured data:
analysisOnMove is the await in onMove (line 167), aiTimer is the
setTimeout(() => makeAiMove(gameCopy), 500) (line 177), bestMove is the
await of getBestMove in makeAiMove (line 124), analysisAi is the await of
getMoveAnalysis in makeAiMove (line 135), chat is the await of
getChatResponse in handleSendMessage (line 194). -/
inductive Task (Fen : Type) where
  | analysisOnMove (gameCopy : Fen) (histSnap : List String)
  | aiTimer (gameCopy : Fen)
  | bestMove (currentGame : Fen)
  | analysisAi (gameCopy : Fen) (histSnap : List String)
  | chat (msg : String)
  deriving DecidableEq

structure World (Fen : Type) where
  st : AppState Fen
  tasks : List (Task Fen)
  deriving DecidableEq

/-- Responses delivered to pending tasks: text for analysis/chat strings,
moveTok for getBestMove results (with the Math.random draw for the fallback
index), timer for a setTimeout firing. -/
inductive Resp where
  | text (s : String)
  | moveTok (tok : Option String) (rand : Nat)
  | timer
  deriving DecidableEq

inductive Event where
  | humanMove (req : MoveReq)
  | sendChat (msg : String)
  | setEloTo (n : Nat)
  | deliver (i : Nat) (r : Resp)
  deriving DecidableEq

variable {Fen : Type}

/-- JS String.prototype.trim, modelled character-wise. -/
def trimStr (s : String) : String :=
  String.mk (((s.data.dropWhile Char.isWhitespace).reverse.dropWhile Char.isWhitespace).reverse)

/-- JS promotion || 'q' (line 159): undefined and '' both default to 'q'. -/
def promoOrQ : Option String → String
  | none => "q"
  | some p => if p = "" then "q" else p

def withPromo (r : MoveReq) : MoveReq :=
  { r with promotion := some (promoOrQ r.promotion) }

/-- Synchronous prefix of onMove (lines 154-166): the isAiPlaying guard, the
move application, the History append and the isAiThinking flag; it ends at
the analysis await, which becomes a pending analysisOnMove task.
An illegal request (move null, or a thrown parse error caught at line 180)
leaves everything unchanged. -/
def onMoveSync (E : Engine Fen) (w : World Fen) (req : MoveReq) : World Fen :=
  if w.st.isAiPlaying then w
  else
    match E.moveReq w.st.game (withPromo req) with
    | none => w
    | some (g2, san) =>
        { st := { w.st with game := g2, history := w.st.history ++ [san], isAiThinking := true },
          tasks := w.tasks ++ [Task.analysisOnMove g2 (w.st.history ++ [san])] }

/-- The game-over chat text of line 173. -/
def gameOverText (E : Engine Fen) (g : Fen) : String :=
  "Game Over. " ++
    (if E.isCheckmate g then
      "Checkmate! " ++ (if E.turnWhite g then "Black" else "White") ++ " wins."
    else "Draw!")

/-- Continuation of onMove after the analysis await (lines 168-178):
setAiAnalysis(analysis) unconditionally, then either the game-over chat
message or the 500ms timer that will run makeAiMove on the captured
gameCopy.  The delivered task has already been removed from w.tasks. -/
def deliverAnalysisOnMove (E : Engine Fen) (w : World Fen) (g : Fen) (resp : String) :
    World Fen :=
  let st1 := { w.st with aiAnalysis := resp, isAiThinking := false }
  if E.isGameOver g then
    { st := { st1 with chatMessages := st1.chatMessages ++ [⟨ChatRole.assistant, gameOverText E g⟩] },
      tasks := w.tasks }
  else
    { st := st1, tasks := w.tasks ++ [Task.aiTimer g] }

/-- The timer firing runs the synchronous prefix of makeAiMove
(lines 120-124): the isGameOver early return, setIsAiPlaying(true), and the
suspension at the getBestMove await. -/
def fireAiTimer (E : Engine Fen) (w : World Fen) (g : Fen) : World Fen :=
  if E.isGameOver g then w
  else { st := { w.st with isAiPlaying := true }, tasks := w.tasks ++ [Task.bestMove g] }

/-- Continuation of makeAiMove after the getBestMove await (lines 126-151).
A null token (if (moveSan) fails) skips everything and only clears
isAiPlaying.  A non-null token is validated by gameCopy.move(moveSan): on
success the move is applied and the flow suspends at the analysis await
(isAiPlaying stays true until that response arrives); on failure the
fallback picks moves[floor(random*moves.length)] and applies it, appending
the raw token to history and clearing isAiPlaying.  When the legal move
list is empty, moves[...] is undefined and move(undefined) returns null, so
nothing is applied (this branch is unreachable for tasks created at a
non-terminal snapshot; the undefined value JS would push into the history
array is not representable here and is omitted). -/
def deliverBestMove (E : Engine Fen) (w : World Fen) (g : Fen) (tok : Option String) (rand : Nat) :
    World Fen :=
  match tok with
  | none => { w with st := { w.st with isAiPlaying := false } }
  | some san =>
    match E.moveSan g san with
    | some (g2, san2) =>
        { st := { w.st with game := g2, history := w.st.history ++ [san2] },
          tasks := w.tasks ++ [Task.analysisAi g2 (w.st.history ++ [san2])] }
    | none =>
        match (E.moves g).get? (rand % (E.moves g).length) with
        | none => { w with st := { w.st with isAiPlaying := false } }
        | some rm =>
            let g3 := match E.moveSan g rm with
                      | some (gg, _) => gg
                      | none => g
            { st := { w.st with game := g3, history := w.st.history ++ [rm], isAiPlaying := false },
              tasks := w.tasks }

/-- Continuation of makeAiMove after its analysis await (lines 135-136 and
151): setAiAnalysis(analysis) unconditionally, then setIsAiPlaying(false). -/
def deliverAnalysisAi (w : World Fen) (resp : String) : World Fen :=
  { w with st := { w.st with aiAnalysis := resp, isAiPlaying := false } }

/-- Synchronous prefix of handleSendMessage (lines 185-193): the empty-input
guard, the user message append, isAiThinking, and the suspension at the
getChatResponse await. -/
def handleSendMessageSync (w : World Fen) (msg : String) : World Fen :=
  if trimStr msg = "" then w
  else
    { st :=
        { w.st with
          chatMessages := w.st.chatMessages ++ [⟨ChatRole.user, msg⟩]
          isAiThinking := true },
      tasks := w.tasks ++ [Task.chat msg] }

/-- Continuation of handleSendMessage (lines 195-196). -/
def deliverChat (w : World Fen) (resp : String) : World Fen :=
  { st :=
      { w.st with
        chatMessages := w.st.chatMessages ++ [⟨ChatRole.assistant, resp⟩]
        isAiThinking := false },
    tasks := w.tasks }

/-- The elo slider onChange handler (line 262) only calls setElo. -/
def setEloEvent (w : World Fen) (n : Nat) : World Fen :=
  { w with st := { w.st with elo := n } }

def taskMatches : Task Fen → Resp → Bool
  | Task.analysisOnMove _ _, Resp.text _ => true
  | Task.aiTimer _, Resp.timer => true
  | Task.bestMove _, Resp.moveTok _ _ => true
  | Task.analysisAi _ _, Resp.text _ => true
  | Task.chat _, Resp.text _ => true
  | _, _ => false

def applyTask (E : Engine Fen) (w : World Fen) : Task Fen → Resp → World Fen
  | Task.analysisOnMove g _, Resp.text s => deliverAnalysisOnMove E w g s
  | Task.aiTimer g, Resp.timer => fireAiTimer E w g
  | Task.bestMove g, Resp.moveTok tok rand => deliverBestMove E w g tok rand
  | Task.analysisAi _ _, Resp.text s => deliverAnalysisAi w s
  | Task.chat _, Resp.text s => deliverChat w s
  | _, _ => w

/-- One step of the event-driven system: a UI intent, or the delivery of a
response to the i-th pending continuation (which removes it). -/
def step (E : Engine Fen) (w : World Fen) : Event → World Fen
  | Event.humanMove req => onMoveSync E w req
  | Event.sendChat m => handleSendMessageSync w m
  | Event.setEloTo n => setEloEvent w n
  | Event.deliver i r =>
      match w.tasks.get? i with
      | none => w
      | some t =>
          if taskMatches t r then applyTask E { st := w.st, tasks := w.tasks.eraseIdx i } t r
          else w

def run (E : Engine Fen) (w : World Fen) (evs : List Event) : World Fen :=
  evs.foldl (step E) w

/-- Initial React state (lines 103-110). -/
def initState (E : Engine Fen) : AppState Fen :=
  { game := E.init, history := [], aiAnalysis := "Make a move to see AI analysis.",
    chatMessages := [], isAiThinking := false, isAiPlaying := false, elo := 1500 }

def initWorld (E : Engine Fen) : World Fen :=
  { st := initState E, tasks := [] }

/-- Replaying a SAN history from a position through the rules engine. -/
def replay (E : Engine Fen) : Fen → List String → Option Fen
  | g, [] => some g
  | g, s :: rest =>
      match E.moveSan g s with
      | none => none
      | some (g2, _) => replay E g2 rest

/-! ## GeminiChessService (src/services/geminiService.ts lines 4-94)

Each provider call is modelled by the outcome of the network request:
either a thrown error, or a response whose text field may be absent. -/

/-- The .replace removing every dot (line 27). -/
def stripDots (s : String) : String :=
  String.mk (s.data.filter (fun c => c != '.'))

/-- getBestMove (lines 11-33): catch normalizes any thrown error to null;
an absent or (after trimming and dot-stripping) empty text is also null. -/
def getBestMove {ε : Type} (resp : Except ε (Option String)) : Option String :=
  match resp with
  | Except.error _ => none
  | Except.ok t =>
      let moveStr := stripDots (trimStr (t.getD ""))
      if moveStr = "" then none else some moveStr

/-- getMoveAnalysis (lines 35-52). -/
def getMoveAnalysis {ε : Type} (resp : Except ε (Option String)) : String :=
  match resp with
  | Except.error _ => "Failed to get AI analysis."
  | Except.ok none => "Analysis unavailable."
  | Except.ok (some t) => if t = "" then "Analysis unavailable." else t

/-- getChatResponse result normalization (lines 78-82). -/
def getChatResponse {ε : Type} (resp : Except ε (Option String)) : String :=
  match resp with
  | Except.error _ => "Even the API is embarrassed by that request."
  | Except.ok none => "I\x27m not sure about that."
  | Except.ok (some t) => if t = "" then "I\x27m not sure about that." else t

/-- getEloDescription (lines 85-93). -/
def getEloDescription (elo : Nat) : String :=
  if elo < 800 then "Beginner - prone to blunders"
  else if elo < 1200 then "Casual Player"
  else if elo < 1600 then "Club Player"
  else if elo < 2000 then "Expert"
  else if elo < 2500 then "Master"
  else if elo < 3500 then "Grandmaster"
  else "Super-Engine / Chess God"

/-- The fixed profanity keyword list of line 58. -/
def profaneWords : List String :=
  ["fuck", "shit", "ass", "bitch", "dick", "pussy", "cunt", "idiot", "stupid", "bastard"]

/-- JS String.prototype.includes: substring containment. -/
def containsTok (hay needle : String) : Bool :=
  (List.range (hay.data.length + 1)).any (fun i => needle.data.isPrefixOf (hay.data.drop i))

/-- JS message.toLowerCase(), modelled character-wise (the keyword list is
ASCII, where JS and simple Unicode lowercasing agree). -/
def toLowerStr (s : String) : String :=
  String.mk (s.data.map Char.toLower)

/-- hasCurse (line 59): case-insensitive substring membership over the
fixed keyword list. -/
def hasCurse (message : String) : Bool :=
  profaneWords.any (fun word => containsTok (toLowerStr message) word)

/-- The adversarial system prompt of lines 63-65. -/
def savagePrompt (elo : Nat) : String :=
  "The user just cursed or was rude. You are a savage, badass chess grandmaster with "
    ++ toString elo ++ " Elo. Roast them for their low-level behavior and their chess skills. "
    ++ "Be witty, cold, and absolutely savage. Keep it under 3 sentences. "
    ++ "No filters, just pure high-IQ arrogance."

/-- The coaching system prompt of lines 66-68. -/
def coachPrompt (message fen : String) (elo : Nat) : String :=
  "You are a chess coach representing a player with an Elo of " ++ toString elo
    ++ " (" ++ getEloDescription elo ++ "). Current FEN: " ++ fen
    ++ ". User asks: \"" ++ message ++ "\". Answer concisely at a depth matching "
    ++ toString elo ++ " Elo."

/-- The systemPrompt selection of line 62. -/
def systemPromptOf (message fen : String) (elo : Nat) : String :=
  if hasCurse message then savagePrompt elo else coachPrompt message fen elo

/-! ## ChessBoard component (src/unnamed/part_001) -/

structure ClickState where
  selectedSquare : Option String
  validMoves : List String
  deriving DecidableEq

/-- Read-only board context the handlers consult: game.get, game.turn, and
game.moves({square, verbose}) mapped to destinations. -/
structure BoardCtx where
  pieceAt : String → Option Piece
  turn : String
  destsFrom : String → List String

/-- handleDrop (lines 59-69): the onMove call it emits, fired only when the
target is in the recorded validMoves, always with promotion 'q'. -/
def handleDropEmit (validMoves : List String) (sourceSquare targetSquare : String) :
    Option MoveReq :=
  if targetSquare ∈ validMoves then some ⟨sourceSquare, targetSquare, some "q"⟩ else none

/-- The shared else-if/else tail of handleSquareClick (lines 92-99). -/
def clickRest (cs : ClickState) (square : String) : ClickState × Option MoveReq :=
  match cs.selectedSquare with
  | some sel =>
      if square ∈ cs.validMoves then (⟨none, []⟩, some ⟨sel, square, some "q"⟩)
      else (⟨none, []⟩, none)
  | none => (⟨none, []⟩, none)

/-- handleSquareClick (lines 76-100): returns the next selection state and
the onMove call it emits, if any. -/
def handleSquareClick (B : BoardCtx) (isGameOver : Bool) (cs : ClickState) (square : String) :
    ClickState × Option MoveReq :=
  if isGameOver then (cs, none)
  else if cs.selectedSquare = some square then (⟨none, []⟩, none)
  else
    match B.pieceAt square with
    | some p => if p.pcolor = B.turn then (⟨some square, B.destsFrom square⟩, none)
                else clickRest cs square
    | none => clickRest cs square

/-! ## A small concrete lawful rules engine, used to evaluate the
orchestrator on explicit inputs.  A position is the list of tokens applied
so far; at each non-terminal position exactly two tokens are legal, and the
game ends after six plies. -/

def toyAllowed (f : List String) : List String :=
  if f.length < 6 then ["a" ++ toString f.length, "b" ++ toString f.length] else []

def toyEngine : Engine (List String) :=
  { init := []
    moveSan := fun f s => if s ∈ toyAllowed f then some (f ++ [s], s) else none
    moveReq := fun f r => if r.toSq ∈ toyAllowed f then some (f ++ [r.toSq], r.toSq) else none
    moves := toyAllowed
    isGameOver := fun f => decide (6 ≤ f.length)
    isCheckmate := fun f => decide (6 ≤ f.length)
    turnWhite := fun f => decide (f.length % 2 = 0) }

/-! ## Trace reasoning utilities -/

/-- Tasks belonging to the move pipeline: their continuations can change
position/history or schedule further moves against a captured snapshot. -/
def Task.isPipeline : Task Fen → Bool
  | Task.analysisOnMove _ _ => true
  | Task.aiTimer _ => true
  | Task.bestMove _ => true
  | _ => false

/-- The AI-turn pipeline is idle: no pending onMove analysis continuation,
no scheduled AI timer, no in-flight best-move request. -/
def pipelineIdle (w : World Fen) : Bool :=
  w.tasks.all (fun t => !t.isPipeline)

/-- A trace discipline: human moves are submitted only while the AI-turn
pipeline is idle (the intended strict turn alternation). -/
def okFrom (E : Engine Fen) : World Fen → List Event → Bool
  | _, [] => true
  | w, ev :: rest =>
      (match ev with
       | Event.humanMove _ => pipelineIdle w
       | _ => true) && okFrom E (step E w ev) rest

/-- The snapshot a pipeline task captured agrees with the current game. -/
def snapOK (st : AppState Fen) : Task Fen → Prop
  | Task.analysisOnMove g _ => g = st.game
  | Task.aiTimer g => g = st.game
  | Task.bestMove g => g = st.game
  | _ => True

def pipeCount (ts : List (Task Fen)) : Nat := ts.countP Task.isPipeline

/-- Inductive invariant for disciplined traces: history replays to the
current position, every pipeline snapshot is current, and at most one
pipeline task is outstanding. -/
structure Inv (E : Engine Fen) (w : World Fen) : Prop where
  rep : replay E E.init w.st.history = some w.st.game
  snaps : ∀ t ∈ w.tasks, snapOK w.st t
  cnt : pipeCount w.tasks ≤ 1

theorem replay_snoc (E : Engine Fen) (h : List String) (g g' f : Fen) (s s' : String)
    (h1 : replay E g h = some g') (h2 : E.moveSan g' s = some (f, s')) :
    replay E g (h ++ [s]) = some f := by
  induction h generalizing g with
  | nil =>
      simp only [replay, Option.some.injEq] at h1
      subst h1
      simp [replay, h2]
  | cons x rest ih =>
      simp only [List.cons_append, replay] at h1 ⊢
      cases hx : E.moveSan g x with
      | none => rw [hx] at h1; cases h1
      | some p =>
          obtain ⟨g2, s2⟩ := p
          rw [hx] at h1
          exact ih g2 h1

theorem countP_eraseIdx {α : Type} (p : α → Bool) :
    ∀ (l : List α) (i : Nat) (a : α), l.get? i = some a →
      l.countP p = (l.eraseIdx i).countP p + (if p a then 1 else 0) := by
  intro l
  induction l with
  | nil => intro i a h; cases h
  | cons b t ih =>
      intro i a h
      cases i with
      | zero =>
          simp only [List.get?] at h
          cases h
          simp [List.eraseIdx, List.countP_cons]
      | succ j =>
          simp only [List.get?] at h
          have := ih j a h
          simp only [List.eraseIdx, List.countP_cons, this]
          omega

theorem eraseIdx_concat {α : Type} (l : List α) (a : α) :
    (l ++ [a]).eraseIdx l.length = l := by
  induction l with
  | nil => rfl
  | cons b t ih => simp [List.eraseIdx, ih]

theorem mem_of_mem_eraseIdx {α : Type} {l : List α} {i : Nat} {a : α}
    (h : a ∈ l.eraseIdx i) : a ∈ l :=
  (List.eraseIdx_sublist l i).subset h

theorem snapOK_of_not_pipeline {st : AppState Fen} {t : Task Fen}
    (h : t.isPipeline = false) : snapOK st t := by
  cases t <;> simp only [snapOK] <;> first | trivial | simp [Task.isPipeline] at h

theorem snapOK_game_eq {st st' : AppState Fen} {t : Task Fen}
    (hg : st.game = st'.game) (h : snapOK st t) : snapOK st' t := by
  cases t <;> simpa [snapOK, ← hg] using h

theorem idle_countP {w : World Fen} (h : pipelineIdle w = true) : pipeCount w.tasks = 0 := by
  rw [pipeCount, List.countP_eq_zero]
  intro t ht
  have := (List.all_eq_true.mp h) t ht
  simpa using this

theorem not_pipeline_of_countP_zero {ts : List (Task Fen)} (h : ts.countP Task.isPipeline = 0)
    {t : Task Fen} (ht : t ∈ ts) : t.isPipeline = false := by
  have := List.countP_eq_zero.mp h t ht
  simpa using this

/-- One step preserves the invariant, provided human moves respect the
turn discipline. -/
theorem inv_step (E : Engine Fen) (L : Lawful E) (w : World Fen) (ev : Event)
    (hI : Inv E w)
    (hok : ∀ req, ev = Event.humanMove req → pipelineIdle w = true) :
    Inv E (step E w ev) := by
  obtain ⟨hrep, hsnaps, hcnt⟩ := hI
  cases ev with
  | humanMove req =>
      have hidle := hok req rfl
      have hzero : pipeCount w.tasks = 0 := idle_countP hidle
      simp only [step, onMoveSync]
      by_cases hp : w.st.isAiPlaying
      · simp only [hp, if_true]
        exact ⟨hrep, hsnaps, hcnt⟩
      · simp only [hp, if_false]
        cases hreq : E.moveReq w.st.game (withPromo req) with
        | none => exact ⟨hrep, hsnaps, hcnt⟩
        | some p =>
            obtain ⟨g2, san⟩ := p
            have hsan := L.reqRound _ _ _ _ hreq
            refine ⟨?_, ?_, ?_⟩
            · exact replay_snoc E w.st.history E.init w.st.game g2 san san hrep hsan
            · intro t ht
              rcases List.mem_append.mp ht with hin | hnew
              · exact snapOK_of_not_pipeline
                  (not_pipeline_of_countP_zero hzero hin)
              · simp only [List.mem_singleton] at hnew
                subst hnew
                simp [snapOK]
            · simp only [pipeCount, List.countP_append] at *
              simp [hzero, List.countP_cons, Task.isPipeline]
  | sendChat m =>
      simp only [step, handleSendMessageSync]
      by_cases he : trimStr m = ""
      · simp only [he, if_pos rfl]
        exact ⟨hrep, hsnaps, hcnt⟩
      · simp only [if_neg he]
        refine ⟨hrep, ?_, ?_⟩
        · intro t ht
          rcases List.mem_append.mp ht with hin | hnew
          · exact snapOK_game_eq rfl (hsnaps t hin)
          · simp only [List.mem_singleton] at hnew
            subst hnew
            simp [snapOK]
        · simp only [pipeCount, List.countP_append] at *
          simpa [List.countP_cons, Task.isPipeline] using hcnt
  | setEloTo n =>
      simp only [step, setEloEvent]
      exact ⟨hrep, fun t ht => snapOK_game_eq rfl (hsnaps t ht), hcnt⟩
  | deliver i r =>
      simp only [step]
      cases hgi : w.tasks.get? i with
      | none => exact ⟨hrep, hsnaps, hcnt⟩
      | some t =>
          have hmem : t ∈ w.tasks := List.get?_mem hgi
          have hsnap := hsnaps t hmem
          have hcount := countP_eraseIdx Task.isPipeline w.tasks i t hgi
          have herased : ∀ t' ∈ w.tasks.eraseIdx i, snapOK w.st t' :=
            fun t' ht' => hsnaps t' (mem_of_mem_eraseIdx ht')
          have hcnt' : (w.tasks.eraseIdx i).countP Task.isPipeline ≤ 1 := by
            simp only [pipeCount] at hcnt
            omega
          cases t with
          | analysisOnMove g hs =>
              cases r with
              | text s =>
                  simp only [taskMatches, if_true, applyTask, deliverAnalysisOnMove]
                  simp only [snapOK] at hsnap
                  have hpipe1 : (w.tasks.eraseIdx i).countP Task.isPipeline = 0 := by
                    simp only [pipeCount, Task.isPipeline, if_pos] at hcount hcnt
                    omega
                  by_cases hover : E.isGameOver g
                  · simp only [hover, if_true]
                    exact ⟨hrep, fun t' ht' => snapOK_game_eq rfl (herased t' ht'), by
                      simp only [pipeCount]; omega⟩
                  · simp only [hover, if_false]
                    refine ⟨hrep, ?_, ?_⟩
                    · intro t' ht'
                      rcases List.mem_append.mp ht' with hin | hnew
                      · exact snapOK_game_eq rfl (herased t' hin)
                      · simp only [List.mem_singleton] at hnew
                        subst hnew
                        simpa [snapOK] using hsnap
                    · simp [pipeCount, List.countP_append, List.countP_cons,
                        List.countP_nil, Task.isPipeline, hpipe1]
              | moveTok tok rand =>
                  simp only [taskMatches, Bool.false_eq_true, if_false]
                  exact ⟨hrep, hsnaps, hcnt⟩
              | timer =>
                  simp only [taskMatches, Bool.false_eq_true, if_false]
                  exact ⟨hrep, hsnaps, hcnt⟩
          | aiTimer g =>
              cases r with
              | timer =>
                  simp only [taskMatches, if_true, applyTask, fireAiTimer]
                  simp only [snapOK] at hsnap
                  have hpipe1 : (w.tasks.eraseIdx i).countP Task.isPipeline = 0 := by
                    simp only [pipeCount, Task.isPipeline, if_pos] at hcount hcnt
                    omega
                  by_cases hover : E.isGameOver g
                  · simp only [hover, if_true]
                    exact ⟨hrep, fun t' ht' => snapOK_game_eq rfl (herased t' ht'), by
                      simp only [pipeCount]; omega⟩
                  · simp only [hover, if_false]
                    refine ⟨hrep, ?_, ?_⟩
                    · intro t' ht'
                      rcases List.mem_append.mp ht' with hin | hnew
                      · exact snapOK_game_eq rfl (herased t' hin)
                      · simp only [List.mem_singleton] at hnew
                        subst hnew
                        simpa [snapOK] using hsnap
                    · simp [pipeCount, List.countP_append, List.countP_cons,
                        List.countP_nil, Task.isPipeline, hpipe1]
              | text s =>
                  simp only [taskMatches, Bool.false_eq_true, if_false]
                  exact ⟨hrep, hsnaps, hcnt⟩
              | moveTok tok rand =>
                  simp only [taskMatches, Bool.false_eq_true, if_false]
                  exact ⟨hrep, hsnaps, hcnt⟩
          | bestMove g =>
              cases r with
              | moveTok tok rand =>
                  simp only [taskMatches, if_true, applyTask]
                  simp only [snapOK] at hsnap
                  have hpipe1 : (w.tasks.eraseIdx i).countP Task.isPipeline = 0 := by
                    simp only [pipeCount, Task.isPipeline, if_pos] at hcount hcnt
                    omega
                  have hnonpipe : ∀ t' ∈ w.tasks.eraseIdx i, t'.isPipeline = false :=
                    fun t' ht' => not_pipeline_of_countP_zero hpipe1 ht'
                  cases tok with
                  | none =>
                      simp only [deliverBestMove]
                      exact ⟨hrep, fun t' ht' => snapOK_game_eq rfl (herased t' ht'), by
                        simp only [pipeCount]; omega⟩
                  | some san =>
                      simp only [deliverBestMove]
                      cases hms : E.moveSan g san with
                      | some p =>
                          obtain ⟨g2, san2⟩ := p
                          have hcanon := L.sanCanon _ _ _ _ hms
                          subst hsnap
                          refine ⟨?_, ?_, ?_⟩
                          · exact replay_snoc E w.st.history E.init w.st.game g2 san2 san2
                              hrep hcanon
                          · intro t' ht'
                            rcases List.mem_append.mp ht' with hin | hnew
                            · exact snapOK_of_not_pipeline (hnonpipe t' hin)
                            · simp only [List.mem_singleton] at hnew
                              subst hnew
                              simp [snapOK]
                          · simp [pipeCount, List.countP_append, List.countP_cons,
                              List.countP_nil, Task.isPipeline, hpipe1]
                      | none =>
                          cases hget : (E.moves g).get? (rand % (E.moves g).length) with
                          | none =>
                              exact ⟨hrep, fun t' ht' => snapOK_game_eq rfl (herased t' ht'), by
                                simp only [pipeCount]; omega⟩
                          | some rm =>
                              have hrm : rm ∈ E.moves g := List.get?_mem hget
                              obtain ⟨f2, hf2⟩ := L.movesLegal _ _ hrm
                              subst hsnap
                              simp only [hf2]
                              refine ⟨?_, ?_, ?_⟩
                              · exact replay_snoc E w.st.history E.init w.st.game f2 rm rm
                                  hrep hf2
                              · intro t' ht'
                                exact snapOK_of_not_pipeline (hnonpipe t' ht')
                              · simp only [pipeCount]
                                omega
              | text s =>
                  simp only [taskMatches, Bool.false_eq_true, if_false]
                  exact ⟨hrep, hsnaps, hcnt⟩
              | timer =>
                  simp only [taskMatches, Bool.false_eq_true, if_false]
                  exact ⟨hrep, hsnaps, hcnt⟩
          | analysisAi g hs =>
              cases r with
              | text s =>
                  simp only [taskMatches, if_true, applyTask, deliverAnalysisAi]
                  exact ⟨hrep, fun t' ht' => snapOK_game_eq rfl (herased t' ht'), by
                    simp only [pipeCount] at *; omega⟩
              | moveTok tok rand =>
                  simp only [taskMatches, Bool.false_eq_true, if_false]
                  exact ⟨hrep, hsnaps, hcnt⟩
              | timer =>
                  simp only [taskMatches, Bool.false_eq_true, if_false]
                  exact ⟨hrep, hsnaps, hcnt⟩
          | chat m =>
              cases r with
              | text s =>
                  simp only [taskMatches, if_true, applyTask, deliverChat]
                  exact ⟨hrep, fun t' ht' => snapOK_game_eq rfl (herased t' ht'), by
                    simp only [pipeCount] at *; omega⟩
              | moveTok tok rand =>
                  simp only [taskMatches, Bool.false_eq_true, if_false]
                  exact ⟨hrep, hsnaps, hcnt⟩
              | timer =>
                  simp only [taskMatches, Bool.false_eq_true, if_false]
                  exact ⟨hrep, hsnaps, hcnt⟩

/-- Disciplined runs preserve the invariant. -/
theorem inv_run (E : Engine Fen) (L : Lawful E) :
    ∀ (evs : List Event) (w : World Fen), Inv E w → okFrom E w evs = true →
      Inv E (run E w evs) := by
  intro evs
  induction evs with
  | nil => intro w hI _; exact hI
  | cons ev rest ih =>
      intro w hI hok
      simp only [okFrom, Bool.and_eq_true] at hok
      have hstep : Inv E (step E w ev) := by
        refine inv_step E L w ev hI ?_
        intro req hev
        subst hev
        simpa using hok.1
      simpa [run, List.foldl] using ih (step E w ev) hstep hok.2

theorem inv_init (E : Engine Fen) : Inv E (initWorld E) := by
  refine ⟨rfl, ?_, ?_⟩
  · intro t ht
    cases ht
  · simp [initWorld, pipeCount]

/-- Tasks whose firing or resolution constitutes the AI turn itself. -/
def isAiTurnTask : Task Fen → Bool
  | Task.aiTimer _ => true
  | Task.bestMove _ => true
  | _ => false

theorem toyAllowed_terminal (f : List String) (h : 6 ≤ f.length) : toyAllowed f = [] := by
  simp only [toyAllowed]
  rw [if_neg]
  omega

theorem toyLawful : Lawful toyEngine := by
  constructor
  · intro f r f' san h
    simp only [toyEngine] at h ⊢
    by_cases hm : r.toSq ∈ toyAllowed f
    · simp only [if_pos hm, Option.some.injEq, Prod.mk.injEq] at h
      simp [← h.2, hm, h.1]
    · simp [hm] at h
  · intro f s f' san h
    simp only [toyEngine] at h ⊢
    by_cases hm : s ∈ toyAllowed f
    · simp only [if_pos hm, Option.some.injEq, Prod.mk.injEq] at h
      simp [← h.2, hm, h.1]
    · simp [hm] at h
  · intro f s h
    have h' : s ∈ toyAllowed f := h
    exact ⟨f ++ [s], by simp [toyEngine, h']⟩
  · intro f r h
    simp only [toyEngine, decide_eq_true_eq] at h ⊢
    simp [toyAllowed_terminal f h]
  · intro f s h
    simp only [toyEngine, decide_eq_true_eq] at h ⊢
    simp [toyAllowed_terminal f h]
  · intro f h
    simp only [toyEngine, decide_eq_false_iff_not] at h ⊢
    have hlt : f.length < 6 := by omega
    simp [toyAllowed, hlt]

/-! ## Claims -/

/-- A world over the toy engine with the AI turn in flight: isAiPlaying is
set and the best-move request for the initial position is pending. -/
def inFlightWorld : World (List String) :=
  { st := { initState toyEngine with isAiPlaying := true },
    tasks := [Task.bestMove []] }

/-- Claim C1, counterexample: at a non-terminal position with legal moves,
a null provider result resolves the AI turn with NO fallback: history and
position are unchanged (no move is applied), the flag merely clears, so the
session stalls exactly in the case the claim says it cannot.  (Source: the
fallback at lines 138-145 sits inside the `if (moveSan)` guard of line 126;
a null token skips it entirely.) -/
theorem c1_null_counterexample :
    toyEngine.isGameOver inFlightWorld.st.game = false ∧
    toyEngine.moves inFlightWorld.st.game ≠ [] ∧
    (step toyEngine inFlightWorld (Event.deliver 0 (Resp.moveTok none 0))).st.history
        = inFlightWorld.st.history ∧
    (step toyEngine inFlightWorld (Event.deliver 0 (Resp.moveTok none 0))).st.game
        = inFlightWorld.st.game ∧
    (step toyEngine inFlightWorld (Event.deliver 0 (Resp.moveTok none 0))).st.isAiPlaying
        = false ∧
    ¬ (step toyEngine inFlightWorld (Event.deliver 0 (Resp.moveTok none 0))).st.history.length
        = inFlightWorld.st.history.length + 1 := by
  refine ⟨?_, ?_, ?_, ?_, ?_, ?_⟩ <;> decide

/-- Claim C1, amended: when the provider returns a NON-NULL token that fails
legality validation, the fallback applies exactly one legal move, appends
exactly one History record, and clears isAiPlaying; when the provider
returns null, no move is applied and no record is appended — the AI turn
simply ends (isAiPlaying cleared) with position and history untouched. -/
theorem c1_amended_resolution {Fen : Type} (E : Engine Fen) (L : Lawful E)
    (w : World Fen) (i : Nat) (g : Fen)
    (hi : w.tasks.get? i = some (Task.bestMove g))
    (hover : E.isGameOver g = false) :
    ((step E w (Event.deliver i (Resp.moveTok none 0))).st.history = w.st.history ∧
     (step E w (Event.deliver i (Resp.moveTok none 0))).st.game = w.st.game ∧
     (step E w (Event.deliver i (Resp.moveTok none 0))).st.isAiPlaying = false) ∧
    (∀ san rand, E.moveSan g san = none →
      ∃ rm f2, rm ∈ E.moves g ∧ E.moveSan g rm = some (f2, rm) ∧
        (step E w (Event.deliver i (Resp.moveTok (some san) rand))).st.history
            = w.st.history ++ [rm] ∧
        (step E w (Event.deliver i (Resp.moveTok (some san) rand))).st.game = f2 ∧
        (step E w (Event.deliver i (Resp.moveTok (some san) rand))).st.isAiPlaying = false) := by
  have hi' : w.tasks[i]? = some (Task.bestMove g) := by
    rw [← List.get?_eq_getElem?]; exact hi
  constructor
  · simp [step, hi', taskMatches, applyTask, deliverBestMove]
  · intro san rand hsan
    have hne : E.moves g ≠ [] := L.liveMoves g hover
    have hpos : 0 < (E.moves g).length := List.length_pos.mpr hne
    have hlt : rand % (E.moves g).length < (E.moves g).length := Nat.mod_lt _ hpos
    have hget' : (E.moves g)[rand % (E.moves g).length]?
        = some ((E.moves g)[rand % (E.moves g).length]) := List.getElem?_eq_getElem hlt
    have hmem : (E.moves g)[rand % (E.moves g).length] ∈ E.moves g := List.getElem_mem hlt
    obtain ⟨f2, hf2⟩ := L.movesLegal _ _ hmem
    refine ⟨(E.moves g)[rand % (E.moves g).length], f2, hmem, hf2, ?_, ?_, ?_⟩ <;>
      simp [step, hi', taskMatches, applyTask, deliverBestMove, hsan, hget', hf2]

/-- Claim C1, amended, witness at the toy engine: null resolution leaves
history unchanged; an illegal token resolution clears the flag after
applying the fallback. -/
theorem c1_amended_resolution_witness :
    (step toyEngine inFlightWorld (Event.deliver 0 (Resp.moveTok none 0))).st.history
        = inFlightWorld.st.history ∧
    (step toyEngine inFlightWorld (Event.deliver 0 (Resp.moveTok none 0))).st.isAiPlaying
        = false ∧
    (step toyEngine inFlightWorld (Event.deliver 0 (Resp.moveTok (some "zz") 7))).st.isAiPlaying
        = false := by
  have h := c1_amended_resolution toyEngine toyLawful inFlightWorld 0 [] rfl (by decide)
  obtain ⟨rm, f2, hmem, hf2, hh, hg, hp⟩ := h.2 "zz" 7 (by decide)
  exact ⟨h.1.1, h.1.2.2, hp⟩

/-- The two human plies of the staleness scenario. -/
def staleTrace3 : List Event :=
  [Event.humanMove ⟨"e2", "a0", some "q"⟩,
   Event.humanMove ⟨"e7", "b1", some "q"⟩,
   Event.deliver 1 (Resp.text "fresh analysis")]

def staleTrace4 : List Event := staleTrace3 ++ [Event.deliver 0 (Resp.text "stale analysis")]

/-- Claim C2, counterexample: two plies are applied; the analysis response
for ply 2 arrives (displayed text becomes the fresh one); then the response
for the ply-1 position arrives late and OVERWRITES the displayed ply-2
analysis — nothing discards it.  (Source: setAiAnalysis(analysis) at lines
136 and 168 is unconditional; no ply counter exists anywhere.) -/
theorem c2_stale_counterexample :
    (run toyEngine (initWorld toyEngine) staleTrace3).st.history = ["a0", "b1"] ∧
    (run toyEngine (initWorld toyEngine) staleTrace3).tasks.get? 0
        = some (Task.analysisOnMove ["a0"] ["a0"]) ∧
    (run toyEngine (initWorld toyEngine) staleTrace3).st.aiAnalysis = "fresh analysis" ∧
    (run toyEngine (initWorld toyEngine) staleTrace4).st.history = ["a0", "b1"] ∧
    (run toyEngine (initWorld toyEngine) staleTrace4).st.aiAnalysis = "stale analysis" ∧
    "stale analysis" ≠ "fresh analysis" := by
  refine ⟨?_, ?_, ?_, ?_, ?_, ?_⟩ <;> decide

/-- Claim C2, amended: there is no staleness check at all — delivering any
analysis response (from either analysis continuation, however old its
captured position) unconditionally overwrites the displayed analysis text:
display is last-writer-wins. -/
theorem c2_amended_overwrite {Fen : Type} (E : Engine Fen) (w : World Fen) (i : Nat)
    (resp : String) :
    (∀ g hs, w.tasks.get? i = some (Task.analysisOnMove g hs) →
      (step E w (Event.deliver i (Resp.text resp))).st.aiAnalysis = resp) ∧
    (∀ g hs, w.tasks.get? i = some (Task.analysisAi g hs) →
      (step E w (Event.deliver i (Resp.text resp))).st.aiAnalysis = resp) := by
  constructor
  · intro g hs hi
    have hi' : w.tasks[i]? = some (Task.analysisOnMove g hs) := by
      rw [← List.get?_eq_getElem?]; exact hi
    by_cases hover : E.isGameOver g <;>
      simp [step, hi', taskMatches, applyTask, deliverAnalysisOnMove, hover]
  · intro g hs hi
    have hi' : w.tasks[i]? = some (Task.analysisAi g hs) := by
      rw [← List.get?_eq_getElem?]; exact hi
    simp [step, hi', taskMatches, applyTask, deliverAnalysisAi]

def pendingAnalysisWorldA : World (List String) :=
  { st := initState toyEngine, tasks := [Task.analysisOnMove ["a0"] ["a0"]] }

def pendingAnalysisWorldB : World (List String) :=
  { st := initState toyEngine, tasks := [Task.analysisAi ["a0"] ["a0"]] }

/-- Claim C2, amended, witness: concrete overwrites through both analysis
continuations. -/
theorem c2_amended_overwrite_witness :
    (step toyEngine pendingAnalysisWorldA (Event.deliver 0 (Resp.text "late"))).st.aiAnalysis
        = "late" ∧
    (step toyEngine pendingAnalysisWorldB (Event.deliver 0 (Resp.text "late"))).st.aiAnalysis
        = "late" :=
  ⟨(c2_amended_overwrite toyEngine pendingAnalysisWorldA 0 "late").1 ["a0"] ["a0"] rfl,
   (c2_amended_overwrite toyEngine pendingAnalysisWorldB 0 "late").2 ["a0"] ["a0"] rfl⟩

/-- The race of the 500ms window: the human moves (ply 1), the analysis
response arrives and schedules the AI timer against the ply-1 snapshot,
the human moves again (ply 2) before the timer fires, then the timer fires
and the AI move resolves against the stale ply-1 snapshot. -/
def raceTrace : List Event :=
  [Event.humanMove ⟨"e2", "a0", some "q"⟩,
   Event.deliver 0 (Resp.text "x"),
   Event.humanMove ⟨"e7", "b1", some "q"⟩,
   Event.deliver 0 Resp.timer,
   Event.deliver 1 (Resp.moveTok (some "a1") 0)]

/-- Claim C3, counterexample: after the race trace — every move of which
was applied through the rules engine and appended its SAN — replaying the
recorded history from the initial position fails (its third record is
illegal at the replay position), so it does not yield the current position.
(Source: makeAiMove at line 120 receives the gameCopy captured by the
setTimeout closure of line 177, not the current game; a human move applied
during the 500ms delay is overwritten at line 131/144.) -/
theorem c3_replay_counterexample :
    (run toyEngine (initWorld toyEngine) raceTrace).st.history = ["a0", "b1", "a1"] ∧
    (run toyEngine (initWorld toyEngine) raceTrace).st.game = ["a0", "a1"] ∧
    replay toyEngine toyEngine.init (run toyEngine (initWorld toyEngine) raceTrace).st.history
        = none ∧
    ¬ replay toyEngine toyEngine.init (run toyEngine (initWorld toyEngine) raceTrace).st.history
        = some (run toyEngine (initWorld toyEngine) raceTrace).st.game := by
  refine ⟨?_, ?_, ?_, ?_⟩ <;> decide

/-- Claim C3, amended: replay consistency holds for all traces in which
human moves are submitted only while the AI-turn pipeline is idle (no
pending onMove-analysis continuation, scheduled timer, or in-flight
best-move request) — i.e. under strict turn alternation; and, in every
state, an illegal human submission changes nothing at all. -/
theorem c3_amended_replay {Fen : Type} (E : Engine Fen) (L : Lawful E) (evs : List Event)
    (hok : okFrom E (initWorld E) evs = true) :
    replay E E.init (run E (initWorld E) evs).st.history
        = some (run E (initWorld E) evs).st.game ∧
    (∀ (w : World Fen) (req : MoveReq), E.moveReq w.st.game (withPromo req) = none →
      step E w (Event.humanMove req) = w) := by
  constructor
  · exact (inv_run E L evs (initWorld E) (inv_init E) hok).rep
  · intro w req hreq
    by_cases hp : w.st.isAiPlaying <;> simp [step, onMoveSync, hp, hreq]

/-- A disciplined alternating trace over the toy engine: human ply, analysis
response, timer, AI ply, AI analysis response, second human ply. -/
def alternatingTrace : List Event :=
  [Event.humanMove ⟨"e2", "a0", some "q"⟩,
   Event.deliver 0 (Resp.text "nice"),
   Event.deliver 0 Resp.timer,
   Event.deliver 0 (Resp.moveTok (some "a1") 0),
   Event.deliver 0 (Resp.text "sharp"),
   Event.humanMove ⟨"d2", "b2", some "q"⟩]

/-- Claim C3, amended, witness: the disciplined trace replays exactly. -/
theorem c3_amended_replay_witness :
    replay toyEngine toyEngine.init
        (run toyEngine (initWorld toyEngine) alternatingTrace).st.history
      = some (run toyEngine (initWorld toyEngine) alternatingTrace).st.game :=
  (c3_amended_replay toyEngine toyLawful alternatingTrace (by decide)).1

/-- Claim C4: submitting a human move while the AI turn is in flight
(isAiPlaying set) leaves the whole session state — position, history,
analysis, chat log, flags and pending tasks — unchanged.  (Source: the
`if (isAiPlaying) return;` guard at line 155.) -/
theorem c4_turn_exclusion {Fen : Type} (E : Engine Fen) (w : World Fen) (req : MoveReq)
    (h : w.st.isAiPlaying = true) :
    step E w (Event.humanMove req) = w := by
  simp [step, onMoveSync, h]

/-- Claim C4, witness. -/
theorem c4_turn_exclusion_witness :
    step toyEngine inFlightWorld (Event.humanMove ⟨"e2", "a0", some "q"⟩) = inFlightWorld :=
  c4_turn_exclusion toyEngine inFlightWorld ⟨"e2", "a0", some "q"⟩ rfl

/-- A full game played to one ply before the end, with the AI timer for the
five-ply position already scheduled, and then the terminal sixth human ply
applied while that timer is still pending (isAiPlaying is still false
during the 500ms window, so the submission goes through). -/
def preTerminalRace : List Event :=
  [Event.humanMove ⟨"e2", "a0", some "q"⟩,
   Event.deliver 0 (Resp.text "t1"),
   Event.deliver 0 Resp.timer,
   Event.deliver 0 (Resp.moveTok (some "a1") 0),
   Event.deliver 0 (Resp.text "t2"),
   Event.humanMove ⟨"e2", "a2", some "q"⟩,
   Event.deliver 0 (Resp.text "t3"),
   Event.deliver 0 Resp.timer,
   Event.deliver 0 (Resp.moveTok (some "a3") 0),
   Event.deliver 0 (Resp.text "t4"),
   Event.humanMove ⟨"e2", "a4", some "q"⟩,
   Event.deliver 0 (Resp.text "t5"),
   Event.humanMove ⟨"e2", "a5", some "q"⟩]

/-- The stale timer fires after the game is over and its best-move request
resolves with a token legal at the captured pre-terminal snapshot. -/
def postTerminalAiMove : List Event :=
  preTerminalRace ++ [Event.deliver 0 Resp.timer, Event.deliver 1 (Resp.moveTok (some "b5") 0)]

/-- Claim C5, counterexample: after preTerminalRace the session is
terminal, yet an AI timer scheduled before the final ply is still pending
with a pre-terminal snapshot.  Firing it passes the isGameOver guard of
line 121 (checked on the stale closure-captured gameCopy, not the current
game), and the subsequent best-move resolution applies a move AFTER game
over: the position is overwritten and history grows — refuting the claim
that every subsequent AI move submission is rejected without mutating
position or history. -/
theorem c5_terminal_counterexample :
    toyEngine.isGameOver (run toyEngine (initWorld toyEngine) preTerminalRace).st.game = true ∧
    (run toyEngine (initWorld toyEngine) preTerminalRace).st.history
        = ["a0", "a1", "a2", "a3", "a4", "a5"] ∧
    (run toyEngine (initWorld toyEngine) preTerminalRace).tasks.get? 0
        = some (Task.aiTimer ["a0", "a1", "a2", "a3", "a4"]) ∧
    (run toyEngine (initWorld toyEngine) postTerminalAiMove).st.history
        = ["a0", "a1", "a2", "a3", "a4", "a5", "b5"] ∧
    ¬ (run toyEngine (initWorld toyEngine) postTerminalAiMove).st.game
        = (run toyEngine (initWorld toyEngine) preTerminalRace).st.game ∧
    ¬ (run toyEngine (initWorld toyEngine) postTerminalAiMove).st.history
        = (run toyEngine (initWorld toyEngine) preTerminalRace).st.history := by
  refine ⟨?_, ?_, ?_, ?_, ?_, ?_⟩ <;> decide

/-- Claim C5, amended: once the current position is terminal, DIRECT
submissions are locked out — human submissions through the orchestrator are
no-ops (the rules engine rejects every request at a terminal position), the
board click handler refuses input (line 77), and an AI turn firing against
the current terminal position returns before touching the state
(line 121) — while chat still succeeds: a non-blank message appends the
user entry and its response appends the assistant entry, with position and
history untouched.  However, an AI turn scheduled BEFORE the game ended
captured a pre-terminal snapshot: firing it passes the isGameOver guard and
issues the best-move request, and resolving that request with a token legal
at the snapshot applies a move even though the session is terminal,
mutating position and appending to history. -/
theorem c5_amended_gameover_lockout {Fen : Type} (E : Engine Fen) (L : Lawful E) (w : World Fen)
    (hover : E.isGameOver w.st.game = true) :
    (∀ req, step E w (Event.humanMove req) = w) ∧
    (∀ i, w.tasks.get? i = some (Task.aiTimer w.st.game) →
      (step E w (Event.deliver i Resp.timer)).st = w.st) ∧
    (∀ msg, trimStr msg ≠ "" →
      (step E w (Event.sendChat msg)).st.chatMessages
          = w.st.chatMessages ++ [⟨ChatRole.user, msg⟩] ∧
      (step E w (Event.sendChat msg)).st.game = w.st.game ∧
      (step E w (Event.sendChat msg)).st.history = w.st.history) ∧
    (∀ i m resp, w.tasks.get? i = some (Task.chat m) →
      (step E w (Event.deliver i (Resp.text resp))).st.chatMessages
          = w.st.chatMessages ++ [⟨ChatRole.assistant, resp⟩] ∧
      (step E w (Event.deliver i (Resp.text resp))).st.game = w.st.game ∧
      (step E w (Event.deliver i (Resp.text resp))).st.history = w.st.history) ∧
    (∀ B cs sq, handleSquareClick B true cs sq = (cs, none)) ∧
    (∀ i g, w.tasks.get? i = some (Task.aiTimer g) → E.isGameOver g = false →
      (step E w (Event.deliver i Resp.timer)).st.isAiPlaying = true ∧
      (step E w (Event.deliver i Resp.timer)).tasks
          = w.tasks.eraseIdx i ++ [Task.bestMove g]) ∧
    (∀ i g san g2 san2 rand, w.tasks.get? i = some (Task.bestMove g) →
      E.moveSan g san = some (g2, san2) →
      (step E w (Event.deliver i (Resp.moveTok (some san) rand))).st.game = g2 ∧
      (step E w (Event.deliver i (Resp.moveTok (some san) rand))).st.history
          = w.st.history ++ [san2]) := by
  refine ⟨?_, ?_, ?_, ?_, ?_, ?_, ?_⟩
  · intro req
    by_cases hp : w.st.isAiPlaying <;>
      simp [step, onMoveSync, hp, L.overNoReq w.st.game (withPromo req) hover]
  · intro i hi
    have hi' : w.tasks[i]? = some (Task.aiTimer w.st.game) := by
      rw [← List.get?_eq_getElem?]; exact hi
    simp [step, hi', taskMatches, applyTask, fireAiTimer, hover]
  · intro msg hmsg
    refine ⟨?_, ?_, ?_⟩ <;> simp [step, handleSendMessageSync, hmsg]
  · intro i m resp hi
    have hi' : w.tasks[i]? = some (Task.chat m) := by
      rw [← List.get?_eq_getElem?]; exact hi
    refine ⟨?_, ?_, ?_⟩ <;> simp [step, hi', taskMatches, applyTask, deliverChat]
  · intro B cs sq
    simp [handleSquareClick]
  · intro i g hi hg
    have hi' : w.tasks[i]? = some (Task.aiTimer g) := by
      rw [← List.get?_eq_getElem?]; exact hi
    constructor <;> simp [step, hi', taskMatches, applyTask, fireAiTimer, hg]
  · intro i g san g2 san2 rand hi hms
    have hi' : w.tasks[i]? = some (Task.bestMove g) := by
      rw [← List.get?_eq_getElem?]; exact hi
    constructor <;> simp [step, hi', taskMatches, applyTask, deliverBestMove, hms]

/-- A finished toy game: six plies played, position terminal. -/
def overFen : List String := ["a0", "b1", "a2", "b3", "a4", "b5"]

/-- A pre-terminal five-ply snapshot, as captured by a timer scheduled
before the final ply. -/
def staleSnapFen : List String := ["a0", "a1", "a2", "a3", "a4"]

def overWorld : World (List String) :=
  { st := { initState toyEngine with game := overFen, history := overFen },
    tasks := [Task.aiTimer overFen, Task.chat "gg",
              Task.aiTimer staleSnapFen, Task.bestMove staleSnapFen] }

/-- Claim C5, amended, witness at the toy engine: direct submissions and
the current-snapshot timer are locked out and chat still works, while the
stale-snapshot timer fires and its resolution appends to history. -/
theorem c5_amended_gameover_lockout_witness :
    step toyEngine overWorld (Event.humanMove ⟨"e2", "a6", some "q"⟩) = overWorld ∧
    (step toyEngine overWorld (Event.deliver 0 Resp.timer)).st = overWorld.st ∧
    (step toyEngine overWorld (Event.sendChat "good game")).st.chatMessages
        = overWorld.st.chatMessages ++ [⟨ChatRole.user, "good game"⟩] ∧
    (step toyEngine overWorld (Event.deliver 1 (Resp.text "gg wp"))).st.chatMessages
        = overWorld.st.chatMessages ++ [⟨ChatRole.assistant, "gg wp"⟩] ∧
    (step toyEngine overWorld (Event.deliver 2 Resp.timer)).st.isAiPlaying = true ∧
    (step toyEngine overWorld (Event.deliver 3 (Resp.moveTok (some "b5") 0))).st.history
        = overWorld.st.history ++ ["b5"] := by
  have h := c5_amended_gameover_lockout toyEngine toyLawful overWorld (by decide)
  exact ⟨h.1 ⟨"e2", "a6", some "q"⟩, h.2.1 0 rfl,
    (h.2.2.1 "good game" (by decide)).1, (h.2.2.2.1 1 "gg" "gg wp" rfl).1,
    (h.2.2.2.2.2.1 2 staleSnapFen rfl (by decide)).1,
    (h.2.2.2.2.2.2 3 staleSnapFen "b5" (staleSnapFen ++ ["b5"]) "b5" 0 rfl (by decide)).2⟩

/-- The world right after a legal human move on the toy engine. -/
def afterHumanMove : World (List String) :=
  step toyEngine (initWorld toyEngine) (Event.humanMove ⟨"e2", "a0", some "q"⟩)

/-- Claim C6, counterexample: immediately after the human move is applied,
the only pending work is the analysis continuation — no AI-turn task (timer
or best-move request) exists; the AI-turn timer is created only by
delivering the analysis response.  The scheduling of the AI turn therefore
waits on the analysis result, contrary to the claim.  (Source: the
setTimeout of line 177 runs after the `await getMoveAnalysis` of line 167
resolves.) -/
theorem c6_gating_counterexample :
    afterHumanMove.st.history = ["a0"] ∧
    afterHumanMove.tasks = [Task.analysisOnMove ["a0"] ["a0"]] ∧
    afterHumanMove.tasks.all (fun t => !isAiTurnTask t) = true ∧
    (step toyEngine afterHumanMove (Event.deliver 0 (Resp.text "slow analysis"))).tasks
        = [Task.aiTimer ["a0"]] := by
  refine ⟨?_, ?_, ?_, ?_⟩ <;> decide

/-- Claim C6, amended: a successful human move suspends at the analysis
request, adding only the analysis continuation; the 500ms AI-turn timer is
scheduled only when the analysis response arrives (on a terminal position
nothing is scheduled).  Since the analysis provider never throws (it
returns a fallback string), a failed analysis still arrives and the turn
still proceeds — but a slow analysis delays the AI turn. -/
theorem c6_amended_gating {Fen : Type} (E : Engine Fen) (w : World Fen) (req : MoveReq)
    (g2 : Fen) (san : String)
    (hplay : w.st.isAiPlaying = false)
    (happ : E.moveReq w.st.game (withPromo req) = some (g2, san)) :
    (step E w (Event.humanMove req)).tasks
        = w.tasks ++ [Task.analysisOnMove g2 (w.st.history ++ [san])] ∧
    (∀ resp, E.isGameOver g2 = false →
      (step E (step E w (Event.humanMove req))
          (Event.deliver w.tasks.length (Resp.text resp))).tasks
        = w.tasks ++ [Task.aiTimer g2]) ∧
    (∀ resp, E.isGameOver g2 = true →
      (step E (step E w (Event.humanMove req))
          (Event.deliver w.tasks.length (Resp.text resp))).tasks = w.tasks) := by
  have hw1 : step E w (Event.humanMove req)
      = { st := { w.st with game := g2, history := w.st.history ++ [san], isAiThinking := true },
          tasks := w.tasks ++ [Task.analysisOnMove g2 (w.st.history ++ [san])] } := by
    simp [step, onMoveSync, hplay, happ]
  have hidx : (w.tasks ++ [Task.analysisOnMove g2 (w.st.history ++ [san])])[w.tasks.length]?
      = some (Task.analysisOnMove g2 (w.st.history ++ [san])) := by
    rw [← List.get?_eq_getElem?]
    exact List.get?_concat_length _ _
  refine ⟨by rw [hw1], ?_, ?_⟩ <;> intro resp hov <;> rw [hw1] <;>
    simp [step, hidx, taskMatches, applyTask, deliverAnalysisOnMove, eraseIdx_concat, hov]

/-- Claim C6, amended, witness at the toy engine. -/
theorem c6_amended_gating_witness :
    (step toyEngine (initWorld toyEngine) (Event.humanMove ⟨"e2", "a0", some "q"⟩)).tasks
        = [Task.analysisOnMove ["a0"] ["a0"]] ∧
    (step toyEngine (step toyEngine (initWorld toyEngine)
          (Event.humanMove ⟨"e2", "a0", some "q"⟩))
        (Event.deliver 0 (Resp.text "any"))).tasks = [Task.aiTimer ["a0"]] := by
  have h := c6_amended_gating toyEngine (initWorld toyEngine) ⟨"e2", "a0", some "q"⟩
    ["a0"] "a0" rfl (by decide)
  exact ⟨h.1, h.2.1 "any" (by decide)⟩

/-- The coaching prompt never equals the adversarial prompt: the two
template literals start with different characters. -/
theorem coach_ne_savage (m fen : String) (elo : Nat) :
    coachPrompt m fen elo ≠ savagePrompt elo := by
  intro h
  have h2 : (coachPrompt m fen elo).data.head? = (savagePrompt elo).data.head? := by rw [h]
  have hc : (coachPrompt m fen elo).data.head? = some 'Y' := rfl
  have hs : (savagePrompt elo).data.head? = some 'T' := rfl
  rw [hc, hs] at h2
  simp at h2

/-- Claim C7: the hostile-content signal is true exactly when the lowercased
message contains at least one keyword of the fixed list as a substring, and
the request is routed to the adversarial-tone system prompt exactly when
the signal is true.  (Source: lines 58-68.) -/
theorem c7_hostile_routing (m fen : String) (elo : Nat) :
    (hasCurse m = true ↔ ∃ word ∈ profaneWords, containsTok (toLowerStr m) word = true) ∧
    (systemPromptOf m fen elo = savagePrompt elo ↔ hasCurse m = true) := by
  constructor
  · simp [hasCurse, List.any_eq_true]
  · constructor
    · intro h
      by_cases hc : hasCurse m = true
      · exact hc
      · exfalso
        rw [systemPromptOf, if_neg (by simp [hc])] at h
        exact coach_ne_savage m fen elo h
    · intro h
      simp [systemPromptOf, h]

/-- Claim C7, witness: a message containing a keyword (in mixed case, inside
a larger word) routes to the adversarial prompt; a clean message does not. -/
theorem c7_hostile_routing_witness :
    systemPromptOf "you absolute IDIOT" "startfen" 1500 = savagePrompt 1500 ∧
    hasCurse "what a lovely opening" = false ∧
    systemPromptOf "what a lovely opening" "startfen" 1500
        = coachPrompt "what a lovely opening" "startfen" 1500 := by
  refine ⟨((c7_hostile_routing "you absolute IDIOT" "startfen" 1500).2).mpr (by decide),
    by decide, ?_⟩
  have h := (c7_hostile_routing "what a lovely opening" "startfen" 1500).2
  simp [systemPromptOf, show hasCurse "what a lovely opening" = false by decide]

/-- Claim C8: no provider operation propagates a failure — every outcome
(thrown error, absent text, empty or dot-and-whitespace-only text) maps to
null for getBestMove and to fixed non-empty fallback strings for
getMoveAnalysis and getChatResponse; the latter two never return the empty
string on any outcome.  (Source: lines 11-83; each function is a total
match over the outcome, which is the embedding of its try/catch.) -/
theorem c8_provider_normalization (ε : Type) (e : ε) :
    getBestMove (Except.error e : Except ε (Option String)) = none ∧
    getBestMove (Except.ok none : Except ε (Option String)) = none ∧
    getBestMove (Except.ok (some "  .. ") : Except ε (Option String)) = none ∧
    getMoveAnalysis (Except.error e : Except ε (Option String)) = "Failed to get AI analysis." ∧
    getMoveAnalysis (Except.ok none : Except ε (Option String)) = "Analysis unavailable." ∧
    getChatResponse (Except.error e : Except ε (Option String))
        = "Even the API is embarrassed by that request." ∧
    getChatResponse (Except.ok none : Except ε (Option String)) = "I\x27m not sure about that." ∧
    (∀ r : Except ε (Option String), getMoveAnalysis r ≠ "" ∧ getChatResponse r ≠ "") := by
  refine ⟨rfl, rfl, rfl, rfl, rfl, rfl, rfl, ?_⟩
  intro r
  rcases r with e2 | t
  · constructor
    · show "Failed to get AI analysis." ≠ ""
      decide
    · show "Even the API is embarrassed by that request." ≠ ""
      decide
  · rcases t with _ | s
    · constructor
      · show "Analysis unavailable." ≠ ""
        decide
      · show "I\x27m not sure about that." ≠ ""
        decide
    · constructor
      · by_cases hs : s = "" <;> simp [getMoveAnalysis, hs]
      · by_cases hs : s = "" <;> simp [getChatResponse, hs]

/-- Claim C8, witness. -/
theorem c8_provider_normalization_witness :
    getBestMove (Except.error () : Except Unit (Option String)) = none ∧
    getMoveAnalysis (Except.ok (some "Solid play.") : Except Unit (Option String)) ≠ "" := by
  have h := c8_provider_normalization Unit ()
  exact ⟨h.1, (h.2.2.2.2.2.2.2 (Except.ok (some "Solid play."))).1⟩

/-- Claim C9: the difficulty slider handler only calls setElo — position,
history, displayed analysis, chat log, both flags, the pending work, and
hence the terminal status are all unchanged; only elo takes the new value.
(Source: line 262.) -/
theorem c9_difficulty_frame {Fen : Type} (E : Engine Fen) (w : World Fen) (n : Nat) :
    (step E w (Event.setEloTo n)).st.game = w.st.game ∧
    (step E w (Event.setEloTo n)).st.history = w.st.history ∧
    (step E w (Event.setEloTo n)).st.aiAnalysis = w.st.aiAnalysis ∧
    (step E w (Event.setEloTo n)).st.chatMessages = w.st.chatMessages ∧
    (step E w (Event.setEloTo n)).st.isAiThinking = w.st.isAiThinking ∧
    (step E w (Event.setEloTo n)).st.isAiPlaying = w.st.isAiPlaying ∧
    (step E w (Event.setEloTo n)).tasks = w.tasks ∧
    E.isGameOver (step E w (Event.setEloTo n)).st.game = E.isGameOver w.st.game ∧
    (step E w (Event.setEloTo n)).st.elo = n := by
  refine ⟨?_, ?_, ?_, ?_, ?_, ?_, ?_, ?_, ?_⟩ <;> simp [step, setEloEvent]

/-- Claim C10: both presentation paths (drag-drop and click-click) emit
move requests whose promotion field is exactly 'q'; the orchestrator
defaults an absent (or empty) promotion to 'q' before validation, so a
request with no promotion is processed identically to one with 'q'.
(Source: src/unnamed/part_001 lines 64 and 93, geminiService.ts line 159.) -/
theorem c10_promotion_queen {Fen : Type} (E : Engine Fen) :
    (∀ vm s t req, handleDropEmit vm s t = some req → req.promotion = some "q") ∧
    (∀ B go cs sq cs2 req, handleSquareClick B go cs sq = (cs2, some req) →
        req.promotion = some "q") ∧
    promoOrQ none = "q" ∧
    promoOrQ (some "") = "q" ∧
    (∀ p, p ≠ "" → promoOrQ (some p) = p) ∧
    (∀ w f t, step E w (Event.humanMove ⟨f, t, none⟩)
        = step E w (Event.humanMove ⟨f, t, some "q"⟩)) := by
  refine ⟨?_, ?_, rfl, rfl, ?_, ?_⟩
  · intro vm s t req h
    by_cases hm : t ∈ vm
    · simp only [handleDropEmit, if_pos hm, Option.some.injEq] at h
      rw [← h]
    · simp [handleDropEmit, hm] at h
  · intro B go cs sq cs2 req h
    by_cases hgo : go
    · simp [handleSquareClick, hgo] at h
    · simp only [handleSquareClick, hgo, Bool.false_eq_true, if_false] at h
      by_cases hsel : cs.selectedSquare = some sq
      · simp [hsel] at h
      · simp only [hsel, if_false] at h
        have hrest : ∀ cs3 sq3, clickRest cs3 sq3 = (cs2, some req) →
            req.promotion = some "q" := by
          intro cs3 sq3 hr
          unfold clickRest at hr
          cases hcs : cs3.selectedSquare with
          | none => rw [hcs] at hr; simp at hr
          | some sel =>
              rw [hcs] at hr
              by_cases hin : sq3 ∈ cs3.validMoves
              · simp only [if_pos hin, Prod.mk.injEq, Option.some.injEq] at hr
                rw [← hr.2]
              · simp [hin] at hr
        cases hp : B.pieceAt sq with
        | none => rw [hp] at h; exact hrest cs sq h
        | some p =>
            rw [hp] at h
            by_cases hcol : p.pcolor = B.turn
            · simp [hcol] at h
            · simp only [hcol, if_false] at h
              exact hrest cs sq h
  · intro p hp
    simp [promoOrQ, hp]
  · intro w f t
    simp [step, onMoveSync, withPromo, promoOrQ]

/-- Claim C10, witness: a concrete drag-drop emission carries promotion 'q',
and a promotion-less request steps identically to a 'q' request. -/
theorem c10_promotion_queen_witness :
    (⟨"e7", "e8", some "q"⟩ : MoveReq).promotion = some "q" ∧
    step toyEngine (initWorld toyEngine) (Event.humanMove ⟨"e2", "a0", none⟩)
        = step toyEngine (initWorld toyEngine) (Event.humanMove ⟨"e2", "a0", some "q"⟩) := by
  have h := c10_promotion_queen toyEngine
  exact ⟨h.1 ["e8"] "e7" "e8" ⟨"e7", "e8", some "q"⟩ (by decide),
    h.2.2.2.2.2 (initWorld toyEngine) "e2" "a0"⟩

end ChessAI
